import Mathlib

/-!
# Verification of the agent-team collaboration engine

Shallow embedding, in Lean 4, of the parts of the `agent-team` Rust backend
that the verified claims are about:

* `src/backend/src/orchestration/state.rs` — `Opinion`, `OrchestrationState`,
  `add_opinion`, `start_new_round`;
* `src/backend/src/orchestration/debate.rs` — `run_debate` (role split,
  round handling, opinion appends), with the LLM provider abstracted as a
  deterministic oracle indexed by call number;
* `src/backend/src/orchestration/roundtable.rs` — `run_roundtable`, with the
  per-agent task outcome abstracted as an oracle keyed by agent id and phase;
  the completion order of the unordered join is modelled by the order of the
  input list (every theorem below is quantified over that list, hence holds
  for every completion order);
* `src/backend/src/agents/instance.rs` — the bounded tool-use loop of
  `generate_opinion_with_tools`, with the provider abstracted as an oracle
  indexed by call number;
* `src/backend/src/tools/security.rs` — path validation and resolution over
  an explicit model of a POSIX file tree with symlinks;
* `src/backend/src/tools/builtin/files.rs` and `text.rs` — `read_file`,
  `write_file`, `delete_lines`;
* `src/backend/src/commands/executions.rs` — the event sequence counter of
  `emit_event`, `run_execution` and `start_execution`.

Machine integers: Rust `u32` token counters are modelled as `Nat` with
explicit saturation at `2^32 - 1`; `i32` round counters as `Int`.  File
contents are modelled as `String` with one byte per character (the byte
ceilings in the claims are exercised on single-byte content only); the two
`f64` budget fields of `OrchestrationState` are not used by any claim and
are left out of the model.
-/

/-- `u32::MAX`, the saturation bound of Rust's `u32::saturating_add`. -/
def u32Max : Nat := 2 ^ 32 - 1

/-- Rust `u32::saturating_add` on the `Nat` model of `u32`. -/
def satAdd (a b : Nat) : Nat := min (a + b) u32Max

/-- `Opinion` from `orchestration/state.rs` (the `f64`-free fields). -/
structure Opinion where
  agent_id : String
  agent_name : String
  content : String
  round : Int
  phase : String
  wants_to_continue : Bool
  responding_to : Option String
  input_tokens : Nat
  output_tokens : Nat
  deriving Repr, DecidableEq

/-- `OrchestrationPhase` from `orchestration/state.rs`. -/
inductive OrchestrationPhase where
  | Initializing
  | Parallel
  | Responding
  | Sequential
  | Summarizing
  | Completed
  | Paused
  | Failed
  deriving Repr, DecidableEq

/-- `OrchestrationState` from `orchestration/state.rs`
(`cost`/`cost_budget` are `f64` and unused by every claim; omitted). -/
structure OrchestrationState where
  topic : String
  round : Int
  phase : OrchestrationPhase
  agent_ids : List String
  active_agent_ids : List String
  opinions : List Opinion
  summary : String
  agent_wants_continue : List (String × Bool)
  tokens_used : Nat
  tokens_budget : Nat
  deriving Repr, DecidableEq

/-- `OrchestrationState::default()` with the serde defaults of `state.rs`. -/
def OrchestrationState.default : OrchestrationState :=
  { topic := ""
    round := 0
    phase := .Initializing
    agent_ids := []
    active_agent_ids := []
    opinions := []
    summary := ""
    agent_wants_continue := []
    tokens_used := 0
    tokens_budget := 200000 }

/-- `HashMap::insert` on the association-list model of
`agent_wants_continue`: replace the binding for the key if present,
else add it. -/
def awcInsert (m : List (String × Bool)) (k : String) (v : Bool) :
    List (String × Bool) :=
  if m.any (fun e => e.1 == k) then
    m.map (fun e => if e.1 == k then (k, v) else e)
  else
    m ++ [(k, v)]

/-- `OrchestrationState::start_new_round` (`state.rs` line 75). -/
def OrchestrationState.start_new_round (st : OrchestrationState) :
    OrchestrationState :=
  { st with round := st.round + 1 }

/-- `OrchestrationState::add_opinion` (`state.rs` lines 79–86):
saturating token accumulation, continuation-intent map update,
append to the opinion list. -/
def OrchestrationState.add_opinion (st : OrchestrationState) (op : Opinion) :
    OrchestrationState :=
  { st with
    tokens_used := satAdd st.tokens_used (satAdd op.input_tokens op.output_tokens)
    agent_wants_continue := awcInsert st.agent_wants_continue op.agent_id op.wants_to_continue
    opinions := st.opinions ++ [op] }

/-- Apply a sequence of `add_opinion` calls in order. -/
def applyAdds (st : OrchestrationState) (ops : List Opinion) :
    OrchestrationState :=
  ops.foldl OrchestrationState.add_opinion st

/-- The saturating running sum `Σ satAdd(input, output)` over a list of
opinions, accumulated exactly the way `add_opinion` accumulates it. -/
def satTokenSum (ops : List Opinion) : Nat :=
  ops.foldl (fun acc op => satAdd acc (satAdd op.input_tokens op.output_tokens)) 0

theorem applyAdds_append (st : OrchestrationState) (ops : List Opinion) (op : Opinion) :
    applyAdds st (ops ++ [op]) = (applyAdds st ops).add_opinion op := by
  simp [applyAdds]

theorem applyAdds_tokens (st : OrchestrationState) (ops : List Opinion) :
    (applyAdds st ops).tokens_used =
      ops.foldl (fun acc op => satAdd acc (satAdd op.input_tokens op.output_tokens))
        st.tokens_used := by
  induction ops generalizing st with
  | nil => rfl
  | cons op rest ih => simp [applyAdds, List.foldl] at *; exact ih _

theorem applyAdds_opinions (st : OrchestrationState) (ops : List Opinion) :
    (applyAdds st ops).opinions = st.opinions ++ ops := by
  induction ops generalizing st with
  | nil => simp [applyAdds]
  | cons op rest ih =>
      simp [applyAdds, List.foldl] at *
      rw [ih]
      simp [OrchestrationState.add_opinion]

/-- C3. For every sequence of `add_opinion` calls starting from the default
(fresh) state, `tokens_used` equals the saturating sum of
`input_tokens + output_tokens` over all opinions ever added, and the opinion
list is exactly the list of added opinions.  Since the statement is
quantified over every sequence, it in particular holds after every prefix of
a longer sequence, i.e. after each individual add. -/
theorem add_opinion_tokens_invariant (ops : List Opinion) :
    (applyAdds OrchestrationState.default ops).tokens_used = satTokenSum ops ∧
    (applyAdds OrchestrationState.default ops).opinions = ops := by
  refine ⟨?_, ?_⟩
  · rw [applyAdds_tokens]
    rfl
  · rw [applyAdds_opinions]
    rfl

/-! ## Debate orchestration (`orchestration/debate.rs`)

`run_debate` is embedded with the per-call LLM reply abstracted as an oracle
`o : Nat → StubResp` indexed by the number of `generate_opinion_with_tools`
calls made so far (a deterministic stub provider).  Tool traces are empty for
a stub provider without an executor, so `emit_tool_traces` emits nothing and
event emission is not tracked here; the round/opinion bookkeeping is the
verbatim mutation sequence of the source. -/

/-- The fields of `AgentInstance` that `run_debate` reads when building
opinions: identity only. -/
structure AgentInfo where
  id : String
  name : String
  deriving Repr, DecidableEq

/-- One stubbed provider reply as seen by `run_debate`: the response content
and the token counts read back out of `resp.metadata`. -/
structure StubResp where
  content : String
  input_tokens : Nat
  output_tokens : Nat
  deriving Repr, DecidableEq

/-- Lines 23–27 of `debate.rs`: `agents.pop()` takes the *last* agent as the
judge; `mid = remaining.len() / 2`; pro is the first `mid` of the remainder
and con the rest.  `none` models the early `return Ok(agents)` for an empty
list. -/
def debateRoles (agents : List AgentInfo) :
    Option (AgentInfo × List AgentInfo × List AgentInfo) :=
  match agents.getLast? with
  | none => none
  | some judge =>
      let rest := agents.dropLast
      let mid := rest.length / 2
      some (judge, rest.take mid, rest.drop mid)

/-- One `state.add_opinion(Opinion { .. })` block of `debate.rs`: the opinion
is stamped with the state's *current* round. -/
def debateAdd (resp : StubResp) (agent : AgentInfo) (phase : String)
    (wants : Bool) (st : OrchestrationState) : OrchestrationState :=
  st.add_opinion
    { agent_id := agent.id
      agent_name := agent.name
      content := resp.content
      round := st.round
      phase := phase
      wants_to_continue := wants
      responding_to := none
      input_tokens := resp.input_tokens
      output_tokens := resp.output_tokens }

/-- A `for agent in team.iter_mut()` loop of `debate.rs` that adds one
opinion per team member with the given phase tag (openings and rebuttals all
use `wants_to_continue: true`), threading the oracle call counter. -/
def addTeamOpinions (o : Nat → StubResp) (k : Nat) (team : List AgentInfo)
    (phase : String) (st : OrchestrationState) : OrchestrationState × Nat :=
  match team with
  | [] => (st, k)
  | a :: rest =>
      addTeamOpinions o (k + 1) rest phase (debateAdd (o k) a phase true st)

/-- The rebuttal loop of `debate.rs` (lines 163–285): each of the
`max_rounds` iterations first increments `state.round`, then the pro team
and the con team each add a rebuttal at the new round. -/
def debateRebuttals (o : Nat → StubResp) (k : Nat) (pro con : List AgentInfo)
    (n : Nat) (st : OrchestrationState) : OrchestrationState × Nat :=
  match n with
  | 0 => (st, k)
  | m + 1 =>
      let st1 := { st with round := st.round + 1 }
      let r1 := addTeamOpinions o k pro "pro_rebuttal" st1
      let r2 := addTeamOpinions o r1.2 con "con_rebuttal" r1.1
      debateRebuttals o r2.2 pro con m r2.1

/-- The body of `run_debate` after the role split, starting from the state
whose round was just set to 1 (`debate.rs` lines 40–363): pro then con
openings, `max_rounds` rebuttal rounds, judge verdict stored as the summary
and appended with `wants_to_continue: false`, phase `Completed`. -/
def debateBody (o : Nat → StubResp) (judge : AgentInfo) (pro con : List AgentInfo)
    (st1 : OrchestrationState) (max_rounds : Nat) : OrchestrationState :=
  let r1 := addTeamOpinions o 0 pro "pro_opening" st1
  let r2 := addTeamOpinions o r1.2 con "con_opening" r1.1
  let r3 := debateRebuttals o r2.2 pro con max_rounds r2.1
  let st2 := { r3.1 with phase := .Summarizing }
  let verdict := o r3.2
  let st3 := { st2 with summary := verdict.content }
  let st4 := debateAdd verdict judge "judge_verdict" false st3
  { st4 with phase := .Completed }

/-- `run_debate` (`debate.rs`): phase `Initializing`; early return on an
empty agent list; role split; `state.round = 1` and phase `Sequential`;
then `debateBody`; returns `pro ++ con ++ [judge]`. -/
def run_debate (o : Nat → StubResp) (agents : List AgentInfo)
    (st : OrchestrationState) (max_rounds : Nat) :
    OrchestrationState × List AgentInfo :=
  let st0 := { st with phase := .Initializing }
  match debateRoles agents with
  | none => (st0, agents)
  | some (judge, pro, con) =>
      (debateBody o judge pro con { st0 with round := 1, phase := .Sequential }
        max_rounds,
       pro ++ con ++ [judge])

/-! ## Roundtable orchestration (`orchestration/roundtable.rs`)

The per-agent concurrent task outcome is abstracted as an oracle
`oc : String → String → Except String StubAgentResp` keyed by agent id and
phase tag (`"initial"` / `"response"`); the completion order of the
`FuturesUnordered` join is modelled by the order of the input agent list,
and every theorem below is quantified over that list, so it holds for every
completion order.  The event sink of the source returns `Result` but is
modelled as infallible event accumulation (the claims are about provider
errors, not sink errors).  The source file stores a `confidence` field in
its opinions that does not exist in `state.rs`'s `Opinion`; it is not
modelled, no claim touches it. -/

/-- The fields of `AgentResponse` that `run_roundtable` copies into
opinions and events (`input_tokens`/`output_tokens` are what it reads back
from `resp.metadata`). -/
structure StubAgentResp where
  content : String
  wants_to_continue : Bool
  responding_to : Option String
  input_tokens : Nat
  output_tokens : Nat
  deriving Repr, DecidableEq

/-- One event forwarded to the sink, restricted to the fields the claims
inspect: event type, the `phase` field of the JSON payload, the `round`
field, and the tagged agent id. -/
structure EmittedEvent where
  etype : String
  phase : String
  round : Int
  agent_id : Option String
  deriving Repr, DecidableEq

/-- One fan-out phase of `run_roundtable` (lines 49–104 for `"initial"`,
141–194 for `"response"`): for each joined task, on success add an opinion
stamped with the current round and emit an `opinion` event; on error emit a
`status` event with phase `agent_error` tagged with the agent's id, add no
opinion; either way push the agent onto `completed_agents`. -/
def roundtablePhase (oc : String → String → Except String StubAgentResp)
    (phaseTag : String) (agents : List AgentInfo)
    (st : OrchestrationState) (evs : List EmittedEvent) :
    OrchestrationState × List EmittedEvent × List AgentInfo :=
  match agents with
  | [] => (st, evs, [])
  | a :: rest =>
      let step : OrchestrationState × List EmittedEvent :=
        match oc a.id phaseTag with
        | .ok resp =>
            (st.add_opinion
              { agent_id := a.id
                agent_name := a.name
                content := resp.content
                round := st.round
                phase := phaseTag
                wants_to_continue := resp.wants_to_continue
                responding_to := resp.responding_to
                input_tokens := resp.input_tokens
                output_tokens := resp.output_tokens },
             evs ++ [{ etype := "opinion", phase := phaseTag,
                       round := st.round, agent_id := some a.id }])
        | .error _ =>
            (st,
             evs ++ [{ etype := "status", phase := "agent_error",
                       round := st.round, agent_id := some a.id }])
      let r := roundtablePhase oc phaseTag rest step.1 step.2
      (r.1, r.2.1, a :: r.2.2)

/-- `run_roundtable` (`roundtable.rs`): phase `Parallel`, status event,
`"initial"` fan-out; if the response phase is disabled, phase `Completed`
and return; otherwise phase `Responding`, status event, `"response"`
fan-out over the completed agents, then phase `Completed`. -/
def run_roundtable (oc : String → String → Except String StubAgentResp)
    (agents : List AgentInfo) (st : OrchestrationState)
    (enable_response_phase : Bool) :
    OrchestrationState × List EmittedEvent × List AgentInfo :=
  let st := { st with phase := .Parallel }
  let evs := [({ etype := "status", phase := "parallel",
                 round := st.round, agent_id := none } : EmittedEvent)]
  let r1 := roundtablePhase oc "initial" agents st evs
  let st := r1.1
  let evs := r1.2.1
  let agents := r1.2.2
  if enable_response_phase = false then
    ({ st with phase := .Completed }, evs, agents)
  else
    let st := { st with phase := .Responding }
    let evs := evs ++ [({ etype := "status", phase := "response",
                          round := st.round, agent_id := none } : EmittedEvent)]
    let r2 := roundtablePhase oc "response" agents st evs
    ({ r2.1 with phase := .Completed }, r2.2.1, r2.2.2)

/-- Structural specification of one roundtable fan-out phase: opinions are
append-only and stamped with the phase tag; the round is untouched; events
are append-only; every agent is pushed to `completed_agents`; every opinion
added comes from a successful task; every successful task adds its opinion;
every failed task emits an `agent_error` status event tagged with the
agent's id. -/
theorem roundtablePhase_spec (oc : String → String → Except String StubAgentResp)
    (tag : String) (agents : List AgentInfo) (st : OrchestrationState)
    (evs : List EmittedEvent) :
    ∃ news Δ,
      (roundtablePhase oc tag agents st evs).1.opinions = st.opinions ++ news ∧
      (roundtablePhase oc tag agents st evs).1.round = st.round ∧
      (roundtablePhase oc tag agents st evs).2.1 = evs ++ Δ ∧
      (roundtablePhase oc tag agents st evs).2.2 = agents ∧
      (∀ op ∈ news, op.phase = tag ∧
        ∃ resp, oc op.agent_id tag = .ok resp ∧ op.content = resp.content) ∧
      (∀ b ∈ agents, ∀ resp, oc b.id tag = .ok resp →
        ∃ op ∈ news, op.agent_id = b.id ∧ op.content = resp.content ∧ op.phase = tag) ∧
      (∀ b ∈ agents, ∀ e, oc b.id tag = .error e →
        ({ etype := "status", phase := "agent_error",
           round := st.round, agent_id := some b.id } : EmittedEvent) ∈ Δ) := by
  induction agents generalizing st evs with
  | nil =>
      exact ⟨[], [], by simp [roundtablePhase]⟩
  | cons a rest ih =>
      cases hoc : oc a.id tag with
      | ok resp =>
          obtain ⟨news, Δ, h1, h2, h3, h4, h5, h6, h7⟩ :=
            ih (st.add_opinion
              { agent_id := a.id, agent_name := a.name, content := resp.content,
                round := st.round, phase := tag,
                wants_to_continue := resp.wants_to_continue,
                responding_to := resp.responding_to,
                input_tokens := resp.input_tokens,
                output_tokens := resp.output_tokens })
              (evs ++ [{ etype := "opinion", phase := tag,
                         round := st.round, agent_id := some a.id }])
          refine ⟨{ agent_id := a.id, agent_name := a.name, content := resp.content,
                    round := st.round, phase := tag,
                    wants_to_continue := resp.wants_to_continue,
                    responding_to := resp.responding_to,
                    input_tokens := resp.input_tokens,
                    output_tokens := resp.output_tokens } :: news,
                  { etype := "opinion", phase := tag,
                    round := st.round, agent_id := some a.id } :: Δ, ?_, ?_, ?_, ?_, ?_, ?_, ?_⟩
          · simp only [roundtablePhase, hoc]
            rw [h1]
            simp [OrchestrationState.add_opinion]
          · simp only [roundtablePhase, hoc]
            rw [h2]
            simp [OrchestrationState.add_opinion]
          · simp only [roundtablePhase, hoc, h3]
            simp
          · simp [roundtablePhase, hoc, h4]
          · intro op hop
            rcases List.mem_cons.mp hop with h | h
            · subst h
              exact ⟨rfl, resp, hoc, rfl⟩
            · exact h5 op h
          · intro b hb r hr
            rcases List.mem_cons.mp hb with h | h
            · subst h
              rw [hoc] at hr
              cases hr
              exact ⟨_, List.mem_cons_self _ _, rfl, rfl, rfl⟩
            · obtain ⟨op, hmem, hprops⟩ := h6 b h r hr
              exact ⟨op, List.mem_cons_of_mem _ hmem, hprops⟩
          · intro b hb e he
            rcases List.mem_cons.mp hb with h | h
            · subst h
              rw [hoc] at he
              cases he
            · have := h7 b h e he
              simp [OrchestrationState.add_opinion] at this
              exact List.mem_cons_of_mem _ this
      | error e0 =>
          obtain ⟨news, Δ, h1, h2, h3, h4, h5, h6, h7⟩ :=
            ih st
              (evs ++ [{ etype := "status", phase := "agent_error",
                         round := st.round, agent_id := some a.id }])
          refine ⟨news,
                  { etype := "status", phase := "agent_error",
                    round := st.round, agent_id := some a.id } :: Δ, ?_, ?_, ?_, ?_, ?_, ?_, ?_⟩
          · simp only [roundtablePhase, hoc, h1]
          · simpa [roundtablePhase, hoc] using h2
          · simp only [roundtablePhase, hoc, h3]
            simp
          · simp [roundtablePhase, hoc, h4]
          · exact h5
          · intro b hb r hr
            rcases List.mem_cons.mp hb with h | h
            · subst h
              rw [hoc] at hr
              cases hr
            · exact h6 b h r hr
          · intro b hb e he
            rcases List.mem_cons.mp hb with h | h
            · subst h
              exact List.mem_cons_self _ _
            · exact List.mem_cons_of_mem _ (h7 b h e he)

/-- C8. In `run_roundtable`, a per-agent provider error in the `"initial"`
fan-out is caught inside the phase loop: a `status` event with phase
`agent_error` tagged with that agent's id is emitted; no opinion with that
agent's id is added for that phase; every other agent's successful result
still produces its opinion; all agents are still returned in
`completed_agents`; and the run completes normally (phase `Completed`,
no propagated failure — the event sink is modelled infallible). -/
theorem roundtable_agent_error_isolated
    (oc : String → String → Except String StubAgentResp)
    (agents : List AgentInfo) (st : OrchestrationState) (enable : Bool)
    (a : AgentInfo) (e : String)
    (ha : a ∈ agents) (herr : oc a.id "initial" = .error e) :
    ({ etype := "status", phase := "agent_error",
       round := st.round, agent_id := some a.id } : EmittedEvent) ∈
        (run_roundtable oc agents st enable).2.1 ∧
    (∃ news, (run_roundtable oc agents st enable).1.opinions = st.opinions ++ news ∧
      (∀ op ∈ news, op.phase = "initial" → op.agent_id ≠ a.id) ∧
      (∀ b ∈ agents, ∀ resp, oc b.id "initial" = .ok resp →
        ∃ op ∈ news, op.agent_id = b.id ∧ op.content = resp.content ∧
          op.phase = "initial")) ∧
    (run_roundtable oc agents st enable).1.phase = .Completed ∧
    (run_roundtable oc agents st enable).2.2 = agents := by
  obtain ⟨news1, Δ1, p1, p2, p3, p4, p5, p6, p7⟩ :=
    roundtablePhase_spec oc "initial" agents { st with phase := .Parallel }
      [({ etype := "status", phase := "parallel",
          round := st.round, agent_id := none } : EmittedEvent)]
  by_cases hen : enable = false
  · subst hen
    refine ⟨?_, ⟨news1, ?_, ?_, ?_⟩, ?_, ?_⟩
    · have := p7 a ha e herr
      simp only [run_roundtable, if_pos rfl, p3]
      exact List.mem_append.mpr (Or.inr this)
    · simpa [run_roundtable] using p1
    · intro op hop hphase
      obtain ⟨_, resp, hok, _⟩ := p5 op hop
      intro hid
      rw [hid] at hok
      rw [herr] at hok
      cases hok
    · intro b hb resp hok
      exact p6 b hb resp hok
    · simp [run_roundtable]
    · simpa [run_roundtable] using p4
  · have hen' : enable = true := by
      cases enable
      · exact absurd rfl hen
      · rfl
    subst hen'
    obtain ⟨news2, Δ2, q1, q2, q3, q4, q5, q6, q7⟩ :=
      roundtablePhase_spec oc "response" agents
        { (roundtablePhase oc "initial" agents { st with phase := .Parallel }
            [({ etype := "status", phase := "parallel",
                round := st.round, agent_id := none } : EmittedEvent)]).1
          with phase := .Responding }
        ((roundtablePhase oc "initial" agents { st with phase := .Parallel }
            [({ etype := "status", phase := "parallel",
                round := st.round, agent_id := none } : EmittedEvent)]).2.1 ++
         [({ etype := "status", phase := "response",
             round := (roundtablePhase oc "initial" agents { st with phase := .Parallel }
               [({ etype := "status", phase := "parallel",
                   round := st.round, agent_id := none } : EmittedEvent)]).1.round,
             agent_id := none } : EmittedEvent)])
    refine ⟨?_, ⟨news1 ++ news2, ?_, ?_, ?_⟩, ?_, ?_⟩
    · have hmem := p7 a ha e herr
      simp only [run_roundtable, if_neg (show ¬(true = false) by decide)]
      rw [p4, q3, p3]
      simp only [List.mem_append]
      left; left; right
      exact hmem
    · simp only [run_roundtable, if_neg (show ¬(true = false) by decide)]
      rw [p4, q1]
      simp only [OrchestrationState.opinions]
      rw [p1]
      simp [List.append_assoc]
    · intro op hop hphase
      rcases List.mem_append.mp hop with h | h
      · obtain ⟨_, resp, hok, _⟩ := p5 op h
        intro hid
        rw [hid] at hok
        rw [herr] at hok
        cases hok
      · obtain ⟨hph, _⟩ := q5 op h
        intro _
        rw [hphase] at hph
        exact absurd hph (by decide)
    · intro b hb resp hok
      obtain ⟨op, hmem, hprops⟩ := p6 b hb resp hok
      exact ⟨op, List.mem_append.mpr (Or.inl hmem), hprops⟩
    · simp [run_roundtable]
    · simp only [run_roundtable, if_neg (show ¬(true = false) by decide)]
      rw [p4]
      exact q4

/-- Concrete deterministic oracle for the C8 witness: agent `a1` fails its
`"initial"` turn, every other turn succeeds. -/
def exRoundtableOracle : String → String → Except String StubAgentResp :=
  fun id phase =>
    if id = "a1" ∧ phase = "initial" then .error "boom"
    else
      .ok { content := "ok", wants_to_continue := true, responding_to := none,
            input_tokens := 1, output_tokens := 2 }

/-- `AgentInfo` values for concrete runs. -/
def rtA1 : AgentInfo := { id := "a1", name := "A1" }

def rtA2 : AgentInfo := { id := "a2", name := "A2" }

/-- Witness for C8 at a concrete two-agent roundtable where `a1`'s initial
turn fails. -/
theorem roundtable_agent_error_isolated_witness :
    ({ etype := "status", phase := "agent_error",
       round := 0, agent_id := some "a1" } : EmittedEvent) ∈
        (run_roundtable exRoundtableOracle [rtA1, rtA2]
          OrchestrationState.default true).2.1 ∧
    (∃ news, (run_roundtable exRoundtableOracle [rtA1, rtA2]
        OrchestrationState.default true).1.opinions =
          OrchestrationState.default.opinions ++ news ∧
      (∀ op ∈ news, op.phase = "initial" → op.agent_id ≠ "a1") ∧
      (∀ b ∈ [rtA1, rtA2], ∀ resp, exRoundtableOracle b.id "initial" = .ok resp →
        ∃ op ∈ news, op.agent_id = b.id ∧ op.content = resp.content ∧
          op.phase = "initial")) ∧
    (run_roundtable exRoundtableOracle [rtA1, rtA2]
      OrchestrationState.default true).1.phase = .Completed ∧
    (run_roundtable exRoundtableOracle [rtA1, rtA2]
      OrchestrationState.default true).2.2 = [rtA1, rtA2] :=
  roundtable_agent_error_isolated exRoundtableOracle [rtA1, rtA2]
    OrchestrationState.default true rtA1 "boom" (by decide) (by rfl)

theorem debateAdd_round (r : StubResp) (a : AgentInfo) (ph : String) (w : Bool)
    (st : OrchestrationState) : (debateAdd r a ph w st).round = st.round := rfl

theorem debateAdd_opinions (r : StubResp) (a : AgentInfo) (ph : String) (w : Bool)
    (st : OrchestrationState) :
    (debateAdd r a ph w st).opinions =
      st.opinions ++
        [{ agent_id := a.id, agent_name := a.name, content := r.content,
           round := st.round, phase := ph, wants_to_continue := w,
           responding_to := none, input_tokens := r.input_tokens,
           output_tokens := r.output_tokens }] := rfl

theorem addTeamOpinions_round (o : Nat → StubResp) (k : Nat)
    (team : List AgentInfo) (phase : String) (st : OrchestrationState) :
    (addTeamOpinions o k team phase st).1.round = st.round := by
  induction team generalizing k st with
  | nil => rfl
  | cons a rest ih =>
      simp only [addTeamOpinions]
      rw [ih]
      rfl

theorem addTeamOpinions_opinions (o : Nat → StubResp) (k : Nat)
    (team : List AgentInfo) (phase : String) (st : OrchestrationState) :
    ∃ news, (addTeamOpinions o k team phase st).1.opinions = st.opinions ++ news ∧
      ∀ op ∈ news, op.round = st.round ∧ op.phase = phase := by
  induction team generalizing k st with
  | nil => exact ⟨[], by simp [addTeamOpinions], by simp⟩
  | cons a rest ih =>
      obtain ⟨news, h1, h2⟩ := ih (k + 1) (debateAdd (o k) a phase true st)
      refine ⟨{ agent_id := a.id, agent_name := a.name, content := (o k).content,
                round := st.round, phase := phase, wants_to_continue := true,
                responding_to := none, input_tokens := (o k).input_tokens,
                output_tokens := (o k).output_tokens } :: news, ?_, ?_⟩
      · simp only [addTeamOpinions]
        rw [h1, debateAdd_opinions]
        simp
      · intro op hop
        rcases List.mem_cons.mp hop with h | h
        · subst h
          exact ⟨rfl, rfl⟩
        · have := h2 op h
          rwa [debateAdd_round] at this

theorem debateRebuttals_round (o : Nat → StubResp) (k : Nat)
    (pro con : List AgentInfo) (n : Nat) (st : OrchestrationState) :
    (debateRebuttals o k pro con n st).1.round = st.round + n := by
  induction n generalizing k st with
  | zero => simp [debateRebuttals]
  | succ m ih =>
      simp only [debateRebuttals]
      rw [ih, addTeamOpinions_round, addTeamOpinions_round]
      push_cast
      ring

/-- Rounds of a list of opinions that all sit at one constant round are
trivially sorted. -/
theorem sorted_le_of_const {l : List Int} {c : Int} (h : ∀ x ∈ l, x = c) :
    l.Sorted (· ≤ ·) := by
  induction l with
  | nil => simp
  | cons a t ih =>
      rw [List.sorted_cons]
      refine ⟨?_, ih fun x hx => h x (List.mem_cons_of_mem _ hx)⟩
      intro b hb
      rw [h a (List.mem_cons_self _ _), h b (List.mem_cons_of_mem _ hb)]

theorem debateRebuttals_opinions (o : Nat → StubResp) (k : Nat)
    (pro con : List AgentInfo) (n : Nat) (st : OrchestrationState) :
    ∃ news, (debateRebuttals o k pro con n st).1.opinions = st.opinions ++ news ∧
      (news.map Opinion.round).Sorted (· ≤ ·) ∧
      ∀ op ∈ news, st.round < op.round ∧ op.round ≤ st.round + n := by
  induction n generalizing k st with
  | zero => exact ⟨[], by simp [debateRebuttals], by simp, by simp⟩
  | succ m ih =>
      obtain ⟨news1, a1, a2⟩ :=
        addTeamOpinions_opinions o k pro "pro_rebuttal" { st with round := st.round + 1 }
      obtain ⟨news2, b1, b2⟩ :=
        addTeamOpinions_opinions o
          (addTeamOpinions o k pro "pro_rebuttal" { st with round := st.round + 1 }).2
          con "con_rebuttal"
          (addTeamOpinions o k pro "pro_rebuttal" { st with round := st.round + 1 }).1
      obtain ⟨news3, c1, c2, c3⟩ := ih
        (addTeamOpinions o
          (addTeamOpinions o k pro "pro_rebuttal" { st with round := st.round + 1 }).2
          con "con_rebuttal"
          (addTeamOpinions o k pro "pro_rebuttal" { st with round := st.round + 1 }).1).2
        (addTeamOpinions o
          (addTeamOpinions o k pro "pro_rebuttal" { st with round := st.round + 1 }).2
          con "con_rebuttal"
          (addTeamOpinions o k pro "pro_rebuttal" { st with round := st.round + 1 }).1).1
      have hr1 : (addTeamOpinions o k pro "pro_rebuttal"
          { st with round := st.round + 1 }).1.round = st.round + 1 := by
        rw [addTeamOpinions_round]
      have hr2 : (addTeamOpinions o
          (addTeamOpinions o k pro "pro_rebuttal" { st with round := st.round + 1 }).2
          con "con_rebuttal"
          (addTeamOpinions o k pro "pro_rebuttal" { st with round := st.round + 1 }).1).1.round
            = st.round + 1 := by
        rw [addTeamOpinions_round, hr1]
      refine ⟨news1 ++ news2 ++ news3, ?_, ?_, ?_⟩
      · simp only [debateRebuttals]
        rw [c1, b1, a1]
        simp [List.append_assoc]
      · have hn1 : ∀ x ∈ news1.map Opinion.round, x = st.round + 1 := by
          intro x hx
          obtain ⟨op, hop, hx⟩ := List.mem_map.mp hx
          rw [← hx]
          exact (a2 op hop).1
        have hn2 : ∀ x ∈ news2.map Opinion.round, x = st.round + 1 := by
          intro x hx
          obtain ⟨op, hop, hx⟩ := List.mem_map.mp hx
          rw [← hx, (b2 op hop).1, hr1]
        have hn3lo : ∀ x ∈ news3.map Opinion.round, st.round + 1 < x := by
          intro x hx
          obtain ⟨op, hop, hx⟩ := List.mem_map.mp hx
          rw [← hx]
          have := (c3 op hop).1
          rwa [hr2] at this
        rw [List.map_append, List.map_append]
        rw [List.Sorted, List.pairwise_append, ← List.Sorted]
        refine ⟨?_, c2, ?_⟩
        · rw [List.Sorted, List.pairwise_append, ← List.Sorted]
          refine ⟨sorted_le_of_const hn1, sorted_le_of_const hn2, ?_⟩
          intro x hx y hy
          rw [hn1 x hx, hn2 y hy]
        · intro x hx y hy
          rcases List.mem_append.mp hx with h | h
          · rw [hn1 x h]
            exact le_of_lt (hn3lo y hy)
          · rw [hn2 x h]
            exact le_of_lt (hn3lo y hy)
      · intro op hop
        have hred : ({ st with round := st.round + 1 } : OrchestrationState).round
            = st.round + 1 := rfl
        rcases List.mem_append.mp hop with h | h
        · rcases List.mem_append.mp h with h' | h'
          · have := (a2 op h').1
            rw [hred] at this
            constructor <;> omega
          · have := (b2 op h').1
            rw [hr1] at this
            constructor <;> omega
        · have lo := (c3 op h).1
          have hi := (c3 op h).2
          rw [hr2] at lo hi
          constructor <;> omega

/-- Opinions appended by the debate body are round-sorted, bounded between
the starting round and the final round, and the final round is the starting
round plus `max_rounds`. -/
theorem debateBody_spec (o : Nat → StubResp) (judge : AgentInfo)
    (pro con : List AgentInfo) (st1 : OrchestrationState) (mr : Nat) :
    (debateBody o judge pro con st1 mr).round = st1.round + mr ∧
    ∃ news, (debateBody o judge pro con st1 mr).opinions = st1.opinions ++ news ∧
      (news.map Opinion.round).Sorted (· ≤ ·) ∧
      ∀ op ∈ news, st1.round ≤ op.round ∧ op.round ≤ st1.round + mr := by
  obtain ⟨news1, a1, a2⟩ := addTeamOpinions_opinions o 0 pro "pro_opening" st1
  set r1 := addTeamOpinions o 0 pro "pro_opening" st1 with hr1def
  obtain ⟨news2, b1, b2⟩ := addTeamOpinions_opinions o r1.2 con "con_opening" r1.1
  set r2 := addTeamOpinions o r1.2 con "con_opening" r1.1 with hr2def
  obtain ⟨news3, c1, c2, c3⟩ := debateRebuttals_opinions o r2.2 pro con mr r2.1
  set r3 := debateRebuttals o r2.2 pro con mr r2.1 with hr3def
  have hround1 : r1.1.round = st1.round := by
    rw [hr1def, addTeamOpinions_round]
  have hround2 : r2.1.round = st1.round := by
    rw [hr2def, addTeamOpinions_round, hround1]
  have hround3 : r3.1.round = st1.round + mr := by
    rw [hr3def, debateRebuttals_round, hround2]
  have hjudge : (debateBody o judge pro con st1 mr).round = st1.round + mr := by
    simp only [debateBody, ← hr1def, ← hr2def, ← hr3def]
    rw [show ∀ x : OrchestrationState, ∀ j v,
        (debateAdd v j "judge_verdict" false x).round = x.round from fun _ _ _ => rfl]
    exact hround3
  refine ⟨hjudge, news1 ++ news2 ++ news3 ++
    [{ agent_id := judge.id, agent_name := judge.name,
       content := (o r3.2).content, round := st1.round + mr,
       phase := "judge_verdict", wants_to_continue := false,
       responding_to := none, input_tokens := (o r3.2).input_tokens,
       output_tokens := (o r3.2).output_tokens }], ?_, ?_, ?_⟩
  · have key : (debateBody o judge pro con st1 mr).opinions =
        r3.1.opinions ++
          [{ agent_id := judge.id, agent_name := judge.name,
             content := (o r3.2).content, round := r3.1.round,
             phase := "judge_verdict", wants_to_continue := false,
             responding_to := none, input_tokens := (o r3.2).input_tokens,
             output_tokens := (o r3.2).output_tokens }] := by
      rw [hr3def, hr2def, hr1def]
      rfl
    rw [key, c1, b1, a1, hround3]
    simp [List.append_assoc]
  · have hn1 : ∀ x ∈ news1.map Opinion.round, x = st1.round := by
      intro x hx
      obtain ⟨op, hop, hx⟩ := List.mem_map.mp hx
      rw [← hx]
      exact (a2 op hop).1
    have hn2 : ∀ x ∈ news2.map Opinion.round, x = st1.round := by
      intro x hx
      obtain ⟨op, hop, hx⟩ := List.mem_map.mp hx
      rw [← hx, (b2 op hop).1, hround1]
    have hn3 : ∀ x ∈ news3.map Opinion.round,
        st1.round < x ∧ x ≤ st1.round + mr := by
      intro x hx
      obtain ⟨op, hop, hx⟩ := List.mem_map.mp hx
      have lo := (c3 op hop).1
      have hi := (c3 op hop).2
      rw [hround2] at lo hi
      rw [← hx]
      exact ⟨lo, hi⟩
    rw [List.map_append, List.map_append, List.map_append]
    refine List.pairwise_append.mpr ⟨?_, ?_, ?_⟩
    · refine List.pairwise_append.mpr ⟨?_, c2, ?_⟩
      · refine List.pairwise_append.mpr
          ⟨sorted_le_of_const hn1, sorted_le_of_const hn2, ?_⟩
        intro x hx y hy
        rw [hn1 x hx, hn2 y hy]
      · intro x hx y hy
        have := (hn3 y hy).1
        rcases List.mem_append.mp hx with h' | h'
        · rw [hn1 x h']
          exact le_of_lt this
        · rw [hn2 x h']
          exact le_of_lt this
    · simp
    · intro x hx y hy
      simp only [List.map_cons, List.map_nil, List.mem_singleton] at hy
      subst hy
      rcases List.mem_append.mp hx with h' | h'
      · rcases List.mem_append.mp h' with h'' | h''
        · rw [hn1 x h'']
          omega
        · rw [hn2 x h'']
          omega
      · exact (hn3 x h').2
  · intro op hop
    rcases List.mem_append.mp hop with h | h
    · rcases List.mem_append.mp h with h' | h'
      · rcases List.mem_append.mp h' with h'' | h''
        · have := (a2 op h'').1
          constructor <;> omega
        · have := (b2 op h'').1
          rw [hround1] at this
          constructor <;> omega
      · have lo := (c3 op h').1
        have hi := (c3 op h').2
        rw [hround2] at lo hi
        constructor <;> omega
    · simp only [List.mem_singleton] at h
      subst h
      refine ⟨?_, ?_⟩ <;> simp

/-- Block decomposition of the rebuttal loop: the opinions appended by
`debateRebuttals` split into one block per iteration, and every opinion in
block `i` is stamped with the round the counter held during that iteration
(`st.round + i + 1`) and a rebuttal phase tag — i.e. each opinion carries
the state's round at the moment it was added. -/
theorem debateRebuttals_blocks (o : Nat → StubResp) (k : Nat)
    (pro con : List AgentInfo) (n : Nat) (st : OrchestrationState) :
    ∃ blocks : List (List Opinion),
      (debateRebuttals o k pro con n st).1.opinions =
        st.opinions ++ blocks.flatten ∧
      blocks.length = n ∧
      ∀ i (hi : i < blocks.length), ∀ op ∈ blocks.get ⟨i, hi⟩,
        op.round = st.round + (i + 1) ∧
        (op.phase = "pro_rebuttal" ∨ op.phase = "con_rebuttal") := by
  induction n generalizing k st with
  | zero =>
      refine ⟨[], by simp [debateRebuttals], rfl, ?_⟩
      intro i hi
      simp at hi
  | succ m ih =>
      obtain ⟨news1, a1, a2⟩ :=
        addTeamOpinions_opinions o k pro "pro_rebuttal"
          { st with round := st.round + 1 }
      obtain ⟨news2, b1, b2⟩ :=
        addTeamOpinions_opinions o
          (addTeamOpinions o k pro "pro_rebuttal"
            { st with round := st.round + 1 }).2
          con "con_rebuttal"
          (addTeamOpinions o k pro "pro_rebuttal"
            { st with round := st.round + 1 }).1
      obtain ⟨blocks, c1, c2, c3⟩ := ih
        (addTeamOpinions o
          (addTeamOpinions o k pro "pro_rebuttal"
            { st with round := st.round + 1 }).2
          con "con_rebuttal"
          (addTeamOpinions o k pro "pro_rebuttal"
            { st with round := st.round + 1 }).1).2
        (addTeamOpinions o
          (addTeamOpinions o k pro "pro_rebuttal"
            { st with round := st.round + 1 }).2
          con "con_rebuttal"
          (addTeamOpinions o k pro "pro_rebuttal"
            { st with round := st.round + 1 }).1).1
      have hred : ({ st with round := st.round + 1 } :
          OrchestrationState).round = st.round + 1 := rfl
      have hr1 : (addTeamOpinions o k pro "pro_rebuttal"
          { st with round := st.round + 1 }).1.round = st.round + 1 := by
        rw [addTeamOpinions_round]
      have hr2 : (addTeamOpinions o
          (addTeamOpinions o k pro "pro_rebuttal"
            { st with round := st.round + 1 }).2
          con "con_rebuttal"
          (addTeamOpinions o k pro "pro_rebuttal"
            { st with round := st.round + 1 }).1).1.round = st.round + 1 := by
        rw [addTeamOpinions_round, hr1]
      refine ⟨(news1 ++ news2) :: blocks, ?_, ?_, ?_⟩
      · simp only [debateRebuttals]
        rw [c1, b1, a1]
        simp [List.append_assoc]
      · simp [c2]
      · intro i hi op hop
        cases i with
        | zero =>
            have hop' : op ∈ news1 ++ news2 := hop
            rcases List.mem_append.mp hop' with h | h
            · obtain ⟨hrd, hph⟩ := a2 op h
              rw [hred] at hrd
              refine ⟨by omega, Or.inl hph⟩
            · obtain ⟨hrd, hph⟩ := b2 op h
              rw [hr1] at hrd
              refine ⟨by omega, Or.inr hph⟩
        | succ j =>
            have hj : j < blocks.length := by
              have := hi
              simp at this
              omega
            have hop' : op ∈ blocks.get ⟨j, hj⟩ := hop
            obtain ⟨hrd, hph⟩ := c3 j hj op hop'
            rw [hr2] at hrd
            refine ⟨by rw [hrd]; push_cast; ring, hph⟩

/-- Per-phase round stamping for the whole debate body: pro and con
openings carry the starting round (the round at the moment they were
added), every rebuttal-block opinion carries the round of its iteration,
and the judge verdict carries the final round. -/
theorem debateBody_stamped (o : Nat → StubResp) (judge : AgentInfo)
    (pro con : List AgentInfo) (st1 : OrchestrationState) (mr : Nat) :
    ∃ (proOps conOps : List Opinion) (blocks : List (List Opinion))
      (jop : Opinion),
      (debateBody o judge pro con st1 mr).opinions =
        st1.opinions ++ (proOps ++ conOps ++ blocks.flatten ++ [jop]) ∧
      (∀ op ∈ proOps, op.round = st1.round ∧ op.phase = "pro_opening") ∧
      (∀ op ∈ conOps, op.round = st1.round ∧ op.phase = "con_opening") ∧
      blocks.length = mr ∧
      (∀ i (hi : i < blocks.length), ∀ op ∈ blocks.get ⟨i, hi⟩,
        op.round = st1.round + (i + 1) ∧
        (op.phase = "pro_rebuttal" ∨ op.phase = "con_rebuttal")) ∧
      jop.round = st1.round + mr ∧ jop.phase = "judge_verdict" := by
  obtain ⟨news1, a1, a2⟩ := addTeamOpinions_opinions o 0 pro "pro_opening" st1
  set r1 := addTeamOpinions o 0 pro "pro_opening" st1 with hr1def
  obtain ⟨news2, b1, b2⟩ := addTeamOpinions_opinions o r1.2 con "con_opening" r1.1
  set r2 := addTeamOpinions o r1.2 con "con_opening" r1.1 with hr2def
  obtain ⟨blocks, c1, c2, c3⟩ := debateRebuttals_blocks o r2.2 pro con mr r2.1
  set r3 := debateRebuttals o r2.2 pro con mr r2.1 with hr3def
  have hround1 : r1.1.round = st1.round := by
    rw [hr1def, addTeamOpinions_round]
  have hround2 : r2.1.round = st1.round := by
    rw [hr2def, addTeamOpinions_round, hround1]
  have hround3 : r3.1.round = st1.round + mr := by
    rw [hr3def, debateRebuttals_round, hround2]
  refine ⟨news1, news2, blocks,
    { agent_id := judge.id, agent_name := judge.name,
      content := (o r3.2).content, round := st1.round + mr,
      phase := "judge_verdict", wants_to_continue := false,
      responding_to := none, input_tokens := (o r3.2).input_tokens,
      output_tokens := (o r3.2).output_tokens },
    ?_, ?_, ?_, c2, ?_, rfl, rfl⟩
  · have key : (debateBody o judge pro con st1 mr).opinions =
        r3.1.opinions ++
          [{ agent_id := judge.id, agent_name := judge.name,
             content := (o r3.2).content, round := r3.1.round,
             phase := "judge_verdict", wants_to_continue := false,
             responding_to := none, input_tokens := (o r3.2).input_tokens,
             output_tokens := (o r3.2).output_tokens }] := by
      rw [hr3def, hr2def, hr1def]
      rfl
    rw [key, c1, b1, a1, hround3]
    simp [List.append_assoc]
  · exact a2
  · intro op hop
    have := b2 op hop
    rw [hround1] at this
    exact this
  · intro i hi op hop
    have := c3 i hi op hop
    rw [hround2] at this
    exact this

theorem roundtablePhase_round (oc : String → String → Except String StubAgentResp)
    (tag : String) (agents : List AgentInfo) (st : OrchestrationState)
    (evs : List EmittedEvent) :
    (roundtablePhase oc tag agents st evs).1.round = st.round := by
  induction agents generalizing st evs with
  | nil => rfl
  | cons a rest ih =>
      cases hoc : oc a.id tag with
      | ok resp =>
          simp only [roundtablePhase, hoc]
          rw [ih]
          rfl
      | error e =>
          simp only [roundtablePhase, hoc]
          rw [ih]

/-- Every opinion in the state after one roundtable fan-out phase either
was already there or is stamped with the state's round — which is also the
round at the moment it was added, since the phase never changes the
round. -/
theorem roundtablePhase_opinions_round
    (oc : String → String → Except String StubAgentResp) (tag : String)
    (agents : List AgentInfo) (st : OrchestrationState)
    (evs : List EmittedEvent) :
    ∀ op ∈ (roundtablePhase oc tag agents st evs).1.opinions,
      op ∈ st.opinions ∨ op.round = st.round := by
  induction agents generalizing st evs with
  | nil => intro op hop; exact Or.inl hop
  | cons a rest ih =>
      intro op hop
      cases hoc : oc a.id tag with
      | ok resp =>
          simp only [roundtablePhase, hoc] at hop
          rcases ih _ _ op hop with h | h
          · simp only [OrchestrationState.add_opinion, List.mem_append,
              List.mem_singleton] at h
            rcases h with h | h
            · exact Or.inl h
            · subst h
              exact Or.inr rfl
          · exact Or.inr h
      | error e =>
          simp only [roundtablePhase, hoc] at hop
          exact ih _ _ op hop

/-! ## Pipeline orchestration (`orchestration/pipeline.rs`)

`run_pipeline` with the per-stage LLM reply abstracted as an oracle
indexed by the 0-based stage position; tool traces are empty for a stub
provider and event emission is not tracked, as in the debate model.  The
source file stores a `confidence` field that does not exist in
`state.rs`'s `Opinion`; it is not modelled, no claim touches it. -/

/-- The hand-off template of `pipeline.rs` lines 69–72. -/
def pipelineHandoff (originalTopic : String) (stage : Nat)
    (content : String) : String :=
  "原始任务：" ++ originalTopic ++ "\n\n上一阶段（第" ++ toString stage ++
    "阶段）的输出：\n" ++ content ++
    "\n\n请基于上述内容，从你的专业角度进行处理和完善。"

/-- The stage loop of `run_pipeline` (`pipeline.rs` lines 26–75): each
stage adds one opinion at the state's current round with phase
`stage_<n>` and `wants_to_continue: true`, then hands its output to the
next stage wrapped in the template. -/
def runPipelineLoop (o : Nat → StubResp) (originalTopic : String) :
    List AgentInfo → Nat → String → OrchestrationState →
      OrchestrationState × List AgentInfo
  | [], _idx, _input, st => (st, [])
  | a :: rest, idx, _input, st =>
      let stage := idx + 1
      let resp := o idx
      let st1 := st.add_opinion
        { agent_id := a.id
          agent_name := a.name
          content := resp.content
          round := st.round
          phase := "stage_" ++ toString stage
          wants_to_continue := true
          responding_to := none
          input_tokens := resp.input_tokens
          output_tokens := resp.output_tokens }
      let r := runPipelineLoop o originalTopic rest (idx + 1)
        (pipelineHandoff originalTopic stage resp.content) st1
      (r.1, a :: r.2)

/-- `run_pipeline` (`pipeline.rs`): phase `Sequential`, the stage relay
starting from the raw topic, phase `Completed`; `state.round` is never
touched. -/
def run_pipeline (o : Nat → StubResp) (agents : List AgentInfo)
    (st : OrchestrationState) : OrchestrationState × List AgentInfo :=
  let st0 := { st with phase := .Sequential }
  let r := runPipelineLoop o st0.topic agents 0 st0.topic st0
  ({ r.1 with phase := .Completed }, r.2)

theorem runPipelineLoop_round (o : Nat → StubResp) (t : String) :
    ∀ (agents : List AgentInfo) (idx : Nat) (inp : String)
      (st : OrchestrationState),
      (runPipelineLoop o t agents idx inp st).1.round = st.round := by
  intro agents
  induction agents with
  | nil => intro idx inp st; rfl
  | cons a rest ih =>
      intro idx inp st
      simp only [runPipelineLoop]
      rw [ih]
      rfl

theorem runPipelineLoop_opinions_round (o : Nat → StubResp) (t : String) :
    ∀ (agents : List AgentInfo) (idx : Nat) (inp : String)
      (st : OrchestrationState),
      ∀ op ∈ (runPipelineLoop o t agents idx inp st).1.opinions,
        op ∈ st.opinions ∨ op.round = st.round := by
  intro agents
  induction agents with
  | nil => intro idx inp st op hop; exact Or.inl hop
  | cons a rest ih =>
      intro idx inp st op hop
      simp only [runPipelineLoop] at hop
      rcases ih _ _ _ op hop with h | h
      · simp only [OrchestrationState.add_opinion, List.mem_append,
          List.mem_singleton] at h
        rcases h with h | h
        · exact Or.inl h
        · subst h
          exact Or.inr rfl
      · exact Or.inr h

/-- Constant stub provider reply used for concrete debate runs. -/
def stubO : Nat → StubResp :=
  fun _ => { content := "c", input_tokens := 1, output_tokens := 1 }

/-- C5 counterexample: `run_debate` unconditionally executes
`state.round = 1`, so running debate (with the `max_rounds = 3` the driver
passes) on a rehydrated state whose round is already 5 ends with round 4 —
the round counter was lowered, violating "no operation of any orchestration
mode ever lowers `state.round`". -/
theorem run_debate_lowers_round_counterexample :
    ({ OrchestrationState.default with round := 5 } : OrchestrationState).round = 5 ∧
    (run_debate stubO [{ id := "j", name := "J" }]
      { OrchestrationState.default with round := 5 } 3).1.round = 4 ∧
    (run_debate stubO [{ id := "j", name := "J" }]
        { OrchestrationState.default with round := 5 } 3).1.round <
      ({ OrchestrationState.default with round := 5 } : OrchestrationState).round := by
  refine ⟨rfl, by decide, by decide⟩

/-- C5 amended.  Round behaviour of the three orchestration modes.
`run_pipeline` and `run_roundtable` never change `state.round`, and every
opinion they append is stamped with that (constant) round — the state's
round at the moment of the add.  Within one `run_debate` call the round is
reset to 1 and then only incremented; every appended opinion is stamped
with the round the counter held when it was added (openings at 1, the
rebuttal block of iteration `i` at `1 + (i+1)`, the judge verdict at the
final round `1 + max_rounds`), so the appended rounds are non-decreasing
in order of addition and bounded by the final round.  What does not hold
(forced by the counterexample) is monotonicity across runs: `run_debate`'s
reset lowers a rehydrated round greater than `1 + max_rounds`. -/
theorem orchestration_round_behavior :
    (∀ (o : Nat → StubResp) (agents : List AgentInfo)
        (st : OrchestrationState),
      (run_pipeline o agents st).1.round = st.round ∧
      ∀ op ∈ (run_pipeline o agents st).1.opinions,
        op ∈ st.opinions ∨ op.round = st.round) ∧
    (∀ (oc : String → String → Except String StubAgentResp)
        (agents : List AgentInfo) (st : OrchestrationState) (enable : Bool),
      (run_roundtable oc agents st enable).1.round = st.round ∧
      ∀ op ∈ (run_roundtable oc agents st enable).1.opinions,
        op ∈ st.opinions ∨ op.round = st.round) ∧
    (∀ (o : Nat → StubResp) (agents : List AgentInfo)
        (st : OrchestrationState) (mr : Nat), agents ≠ [] →
      (run_debate o agents st mr).1.round = 1 + mr ∧
      ∃ (proOps conOps : List Opinion) (blocks : List (List Opinion))
        (jop : Opinion),
        (run_debate o agents st mr).1.opinions =
          st.opinions ++ (proOps ++ conOps ++ blocks.flatten ++ [jop]) ∧
        (∀ op ∈ proOps, op.round = 1 ∧ op.phase = "pro_opening") ∧
        (∀ op ∈ conOps, op.round = 1 ∧ op.phase = "con_opening") ∧
        blocks.length = mr ∧
        (∀ i (hi : i < blocks.length), ∀ op ∈ blocks.get ⟨i, hi⟩,
          op.round = 1 + (i + 1) ∧
          (op.phase = "pro_rebuttal" ∨ op.phase = "con_rebuttal")) ∧
        jop.round = 1 + mr ∧ jop.phase = "judge_verdict" ∧
        (((proOps ++ conOps ++ blocks.flatten ++ [jop]).map
            Opinion.round).Sorted (· ≤ ·) ∧
         ∀ op ∈ proOps ++ conOps ++ blocks.flatten ++ [jop],
           1 ≤ op.round ∧
             op.round ≤ (run_debate o agents st mr).1.round)) := by
  refine ⟨?_, ?_, ?_⟩
  · intro o agents st
    constructor
    · simp [run_pipeline, runPipelineLoop_round]
    · intro op hop
      simp only [run_pipeline] at hop
      exact runPipelineLoop_opinions_round o st.topic agents 0 st.topic
        { st with phase := .Sequential } op hop
  · intro oc agents st enable
    constructor
    · cases enable <;>
        simp [run_roundtable, roundtablePhase_round]
    · intro op hop
      cases enable with
      | false =>
          simp only [run_roundtable, if_pos rfl] at hop
          exact roundtablePhase_opinions_round oc "initial" agents
            { st with phase := .Parallel } _ op hop
      | true =>
          simp only [run_roundtable,
            if_neg (show ¬(true = false) by decide)] at hop
          rcases roundtablePhase_opinions_round oc "response" _ _ _ op hop
            with h | h
          · rcases roundtablePhase_opinions_round oc "initial" agents
                { st with phase := .Parallel } _ op h with h' | h'
            · exact Or.inl h'
            · exact Or.inr h'
          · right
            rw [h]
            simp only [OrchestrationState.round]
            rw [roundtablePhase_round]
  · intro o agents st mr hne
    have hlast : agents.getLast? = some (agents.getLast hne) :=
      List.getLast?_eq_getLast_of_ne_nil hne
    have hd : debateRoles agents = some (agents.getLast hne,
        agents.dropLast.take (agents.dropLast.length / 2),
        agents.dropLast.drop (agents.dropLast.length / 2)) := by
      simp [debateRoles, hlast]
    obtain ⟨hr, newsA, h1, h2, h3⟩ :=
      debateBody_spec o (agents.getLast hne)
        (agents.dropLast.take (agents.dropLast.length / 2))
        (agents.dropLast.drop (agents.dropLast.length / 2))
        { { st with phase := .Initializing } with
            round := 1, phase := .Sequential } mr
    obtain ⟨proOps, conOps, blocks, jop, s1, s2, s3, s4, s5, s6, s7⟩ :=
      debateBody_stamped o (agents.getLast hne)
        (agents.dropLast.take (agents.dropLast.length / 2))
        (agents.dropLast.drop (agents.dropLast.length / 2))
        { { st with phase := .Initializing } with
            round := 1, phase := .Sequential } mr
    have hrun : (run_debate o agents st mr).1 =
        debateBody o (agents.getLast hne)
          (agents.dropLast.take (agents.dropLast.length / 2))
          (agents.dropLast.drop (agents.dropLast.length / 2))
          { { st with phase := .Initializing } with
              round := 1, phase := .Sequential } mr := by
      simp only [run_debate, hd]
    have hnews : newsA = proOps ++ conOps ++ blocks.flatten ++ [jop] :=
      List.append_cancel_left (h1.symm.trans s1)
    refine ⟨by rw [hrun, hr], proOps, conOps, blocks, jop, ?_, s2, s3, s4,
      s5, s6, s7, ?_, ?_⟩
    · rw [hrun, s1]
    · rw [← hnews]
      exact h2
    · intro op hop
      rw [← hnews] at hop
      have := h3 op hop
      refine ⟨this.1, ?_⟩
      rw [hrun, hr]
      exact this.2

/-- Witness for the amended C5 theorem at concrete inputs: a one-stage
pipeline, a two-agent roundtable, and a one-agent debate with two rebuttal
rounds. -/
theorem orchestration_round_behavior_witness :
    ((run_pipeline stubO [rtA1] OrchestrationState.default).1.round =
        OrchestrationState.default.round ∧
      ∀ op ∈ (run_pipeline stubO [rtA1]
          OrchestrationState.default).1.opinions,
        op ∈ OrchestrationState.default.opinions ∨
          op.round = OrchestrationState.default.round) ∧
    ((run_roundtable exRoundtableOracle [rtA1, rtA2]
        OrchestrationState.default true).1.round =
          OrchestrationState.default.round ∧
      ∀ op ∈ (run_roundtable exRoundtableOracle [rtA1, rtA2]
          OrchestrationState.default true).1.opinions,
        op ∈ OrchestrationState.default.opinions ∨
          op.round = OrchestrationState.default.round) ∧
    ((run_debate stubO [rtA1] OrchestrationState.default 2).1.round = 1 + 2 ∧
      ∃ (proOps conOps : List Opinion) (blocks : List (List Opinion))
        (jop : Opinion),
        (run_debate stubO [rtA1] OrchestrationState.default 2).1.opinions =
          OrchestrationState.default.opinions ++
            (proOps ++ conOps ++ blocks.flatten ++ [jop]) ∧
        (∀ op ∈ proOps, op.round = 1 ∧ op.phase = "pro_opening") ∧
        (∀ op ∈ conOps, op.round = 1 ∧ op.phase = "con_opening") ∧
        blocks.length = 2 ∧
        (∀ i (hi : i < blocks.length), ∀ op ∈ blocks.get ⟨i, hi⟩,
          op.round = 1 + (i + 1) ∧
          (op.phase = "pro_rebuttal" ∨ op.phase = "con_rebuttal")) ∧
        jop.round = 1 + 2 ∧ jop.phase = "judge_verdict" ∧
        (((proOps ++ conOps ++ blocks.flatten ++ [jop]).map
            Opinion.round).Sorted (· ≤ ·) ∧
         ∀ op ∈ proOps ++ conOps ++ blocks.flatten ++ [jop],
           1 ≤ op.round ∧
             op.round ≤ (run_debate stubO [rtA1]
               OrchestrationState.default 2).1.round)) :=
  ⟨orchestration_round_behavior.1 stubO [rtA1] OrchestrationState.default,
   orchestration_round_behavior.2.1 exRoundtableOracle [rtA1, rtA2]
     OrchestrationState.default true,
   orchestration_round_behavior.2.2 stubO [rtA1] OrchestrationState.default 2
     (by decide)⟩

/-- C7. For every agent list of `K ≥ 3` agents, the debate role split
assigns the judge to `agents[K-1]`, the pro team to the first
`⌊(K-1)/2⌋` of the remaining agents and the con team to the rest of the
remainder; `run_debate` returns the agents reordered as
`pro ++ con ++ [judge]`.  `debateRoles` is a function of the agent list
alone, so no other assignment is possible. -/
theorem debate_role_assignment (agents : List AgentInfo)
    (o : Nat → StubResp) (st : OrchestrationState) (mr : Nat)
    (h : 3 ≤ agents.length) :
    debateRoles agents =
      some (agents.get ⟨agents.length - 1, by omega⟩,
        agents.take ((agents.length - 1) / 2),
        (agents.take (agents.length - 1)).drop ((agents.length - 1) / 2)) ∧
    (run_debate o agents st mr).2 =
      agents.take ((agents.length - 1) / 2) ++
        (agents.take (agents.length - 1)).drop ((agents.length - 1) / 2) ++
        [agents.get ⟨agents.length - 1, by omega⟩] := by
  have hne : agents ≠ [] := by
    intro h'
    rw [h'] at h
    simp at h
  have hlast : agents.getLast? = some (agents.getLast hne) :=
    List.getLast?_eq_getLast_of_ne_nil hne
  have hget : agents.getLast hne = agents.get ⟨agents.length - 1, by omega⟩ := by
    rw [List.getLast_eq_getElem]
    simp [List.get_eq_getElem]
  have hdl : agents.dropLast = agents.take (agents.length - 1) :=
    List.dropLast_eq_take agents
  have hlen : agents.dropLast.length = agents.length - 1 :=
    List.length_dropLast agents
  have htt : (agents.take (agents.length - 1)).take ((agents.length - 1) / 2) =
      agents.take ((agents.length - 1) / 2) := by
    rw [List.take_take]
    congr 1
    exact min_eq_left (Nat.div_le_self _ _)
  have hlen2 : (List.take (agents.length - 1) agents).length =
      agents.length - 1 := by
    rw [List.length_take]
    omega
  have h1 : debateRoles agents =
      some (agents.get ⟨agents.length - 1, by omega⟩,
        agents.take ((agents.length - 1) / 2),
        (agents.take (agents.length - 1)).drop ((agents.length - 1) / 2)) := by
    simp only [debateRoles, hlast, hget, hlen, hdl, hlen2, htt]
  refine ⟨h1, ?_⟩
  simp only [run_debate, h1]

/-- Witness for C7 at the four-agent list of the spec's Scenario B:
judge is the fourth agent, pro is the first agent alone, con the second
and third. -/
theorem debate_role_assignment_witness :
    debateRoles [{ id := "a0", name := "A0" }, { id := "a1", name := "A1" },
        { id := "a2", name := "A2" }, { id := "a3", name := "A3" }] =
      some ({ id := "a3", name := "A3" },
        [{ id := "a0", name := "A0" }],
        [{ id := "a1", name := "A1" }, { id := "a2", name := "A2" }]) ∧
    (run_debate stubO
        [{ id := "a0", name := "A0" }, { id := "a1", name := "A1" },
         { id := "a2", name := "A2" }, { id := "a3", name := "A3" }]
        OrchestrationState.default 1).2 =
      [{ id := "a0", name := "A0" }] ++
        [{ id := "a1", name := "A1" }, { id := "a2", name := "A2" }] ++
        [{ id := "a3", name := "A3" }] :=
  debate_role_assignment
    [{ id := "a0", name := "A0" }, { id := "a1", name := "A1" },
     { id := "a2", name := "A2" }, { id := "a3", name := "A3" }]
    stubO OrchestrationState.default 1 (by decide)

/-! ## The bounded tool-use loop (`agents/instance.rs`)

The provider is abstracted as an oracle indexed by the number of provider
calls already made; message accumulation and tool execution are omitted
because they influence neither the call count, the token totals, nor the
returned content (tool results are only appended onto the outgoing message
list). -/

/-- One provider reply as consumed by the tool loop: text content, usage
counters with the estimated flag, and the tool-call list (only emptiness
steers the loop; elements are call ids). -/
structure LoopReply where
  content : String
  input_tokens : Nat
  output_tokens : Nat
  estimated : Bool
  tool_calls : List String
  deriving Repr, DecidableEq

/-- `AgentInstance::from_agent` (`instance.rs` line 39):
`agent.max_tool_iterations.unwrap_or(10).clamp(1, 50)`. -/
def fromAgentMaxToolIterations (cfg : Option Nat) : Nat :=
  min (max (cfg.getD 10) 1) 50

/-- The `for _ in 0..max_iters` loop body of
`generate_opinion_with_tools` (`instance.rs` lines 169–223).  Arguments:
remaining iterations, provider-call counter, `last_text`, accumulated
input/output tokens, estimated flag.  Returns
`(calls made, final_text, last_text, input_tokens, output_tokens,
estimated)`; `final_text` stays `""` when the iteration budget runs out
without a tool-call-free reply. -/
def toolLoopGo (provider : Nat → LoopReply) (toolsEnabled : Bool) :
    Nat → Nat → String → Nat → Nat → Bool →
      Nat × String × String × Nat × Nat × Bool
  | 0, k, last, tin, tout, te => (k, "", last, tin, tout, te)
  | m + 1, k, _last, tin, tout, te =>
      let resp := provider k
      let tin := satAdd tin resp.input_tokens
      let tout := satAdd tout resp.output_tokens
      let te := te || resp.estimated
      if resp.tool_calls.isEmpty || !toolsEnabled then
        (k + 1, resp.content, resp.content, tin, tout, te)
      else
        toolLoopGo provider toolsEnabled m (k + 1) resp.content tin tout te

/-- Rust `str::trim`: drop whitespace from both ends.  (Defined here over
the character list because Lean's built-in `String.trim` does not reduce
inside the kernel.) -/
def rustTrim (s : String) : String :=
  ⟨((s.data.dropWhile Char.isWhitespace).reverse.dropWhile
      Char.isWhitespace).reverse⟩

/-- `generate_opinion_with_tools` (`instance.rs` lines 161–245) restricted
to call count and returned content: the iteration bound is
`self.max_tool_iterations.max(1).min(50)`; after the loop, an empty-after-
trim `final_text` falls back onto `last_text`, and the returned content is
the trimmed final text. -/
def generate_opinion_with_tools (provider : Nat → LoopReply)
    (toolsEnabled : Bool) (max_tool_iterations : Nat) : Nat × String :=
  let maxIters := min (max max_tool_iterations 1) 50
  let r := toolLoopGo provider toolsEnabled maxIters 0 "" 0 0 false
  let finalText := if rustTrim r.2.1 = "" then r.2.2.1 else r.2.1
  (r.1, rustTrim finalText)

theorem toolLoopGo_count (provider : Nat → LoopReply) (fuel : Nat) :
    ∀ (k : Nat) (last : String) (tin tout : Nat) (te : Bool),
    (∀ j < fuel, (provider (k + j)).tool_calls ≠ []) →
    (toolLoopGo provider true fuel k last tin tout te).1 = k + fuel ∧
    (toolLoopGo provider true fuel k last tin tout te).2.1 = "" ∧
    (toolLoopGo provider true fuel k last tin tout te).2.2.1 =
      (if fuel = 0 then last else (provider (k + fuel - 1)).content) := by
  induction fuel with
  | zero => intro k _last tin tout te _; exact ⟨rfl, rfl, rfl⟩
  | succ m ih =>
      intro k last tin tout te h
      have h0 : (provider k).tool_calls ≠ [] := by
        have := h 0 (Nat.succ_pos m)
        simpa using this
      have hne : ((provider k).tool_calls.isEmpty || !true) = false := by
        simp [List.isEmpty_iff, h0]
      have hshift : ∀ j < m, (provider (k + 1 + j)).tool_calls ≠ [] := by
        intro j hj
        have := h (j + 1) (by omega)
        have heq : k + (j + 1) = k + 1 + j := by omega
        rwa [heq] at this
      obtain ⟨c1, c2, c3⟩ := ih (k + 1) (provider k).content
        (satAdd tin (provider k).input_tokens)
        (satAdd tout (provider k).output_tokens)
        (te || (provider k).estimated) hshift
      refine ⟨?_, ?_, ?_⟩
      · simp only [toolLoopGo, hne, Bool.false_eq_true, if_false]
        rw [c1]
        omega
      · simp only [toolLoopGo, hne, Bool.false_eq_true, if_false]
        exact c2
      · simp only [toolLoopGo, hne, Bool.false_eq_true, if_false]
        rw [c3]
        rcases Nat.eq_zero_or_pos m with hm | hm
        · subst hm
          simp
        · have hm0 : m ≠ 0 := by omega
          rw [if_neg hm0, if_neg (Nat.succ_ne_zero m)]
          congr 2
          omega

/-- C6. With tools enabled and a provider that returns a non-empty
tool-call list on every iteration, the loop performs exactly
`max_tool_iterations` provider calls — where `max_tool_iterations` is the
persona's configured value clamped to `[1, 50]` by `from_agent` — then
terminates, returning the trimmed text of the last provider reply as the
final content. -/
theorem tool_loop_exhausts_budget (provider : Nat → LoopReply)
    (cfg : Option Nat)
    (h : ∀ i < fromAgentMaxToolIterations cfg, (provider i).tool_calls ≠ []) :
    generate_opinion_with_tools provider true (fromAgentMaxToolIterations cfg) =
      (fromAgentMaxToolIterations cfg,
       rustTrim (provider (fromAgentMaxToolIterations cfg - 1)).content) ∧
    1 ≤ fromAgentMaxToolIterations cfg ∧
    fromAgentMaxToolIterations cfg ≤ 50 := by
  have hb : 1 ≤ fromAgentMaxToolIterations cfg ∧
      fromAgentMaxToolIterations cfg ≤ 50 := by
    unfold fromAgentMaxToolIterations
    omega
  have hclamp : min (max (fromAgentMaxToolIterations cfg) 1) 50 =
      fromAgentMaxToolIterations cfg := by
    omega
  obtain ⟨c1, c2, c3⟩ :=
    toolLoopGo_count provider (fromAgentMaxToolIterations cfg) 0 "" 0 0 false
      (by intro j hj; simpa using h j hj)
  have hfz : fromAgentMaxToolIterations cfg ≠ 0 := by omega
  refine ⟨?_, hb⟩
  simp only [generate_opinion_with_tools, hclamp]
  rw [c1, c2, c3, if_neg hfz]
  rw [if_pos (show rustTrim "" = "" by decide)]
  rw [Nat.zero_add]

/-- Witness for C6: configured value 3 (already inside `[1,50]`), a
provider that always requests one tool call; exactly 3 provider calls are
made and the third reply's trimmed text is returned. -/
theorem tool_loop_exhausts_budget_witness :
    generate_opinion_with_tools
        (fun _ => { content := " x ", input_tokens := 1, output_tokens := 1,
                    estimated := false, tool_calls := ["c1"] })
        true (fromAgentMaxToolIterations (some 3)) =
      (fromAgentMaxToolIterations (some 3),
       rustTrim (( fun (_ : Nat) =>
            ({ content := " x ", input_tokens := 1, output_tokens := 1,
               estimated := false, tool_calls := ["c1"] } : LoopReply))
          (fromAgentMaxToolIterations (some 3) - 1)).content) ∧
    1 ≤ fromAgentMaxToolIterations (some 3) ∧
    fromAgentMaxToolIterations (some 3) ≤ 50 :=
  tool_loop_exhausts_budget
    (fun _ => { content := " x ", input_tokens := 1, output_tokens := 1,
                estimated := false, tool_calls := ["c1"] })
    (some 3) (by decide)

/-! ## Event sequence numbers (`commands/executions.rs`)

`emit_event` pre-increments a `u64` counter and stamps the payload with the
new value; `run_execution` threads one counter (`event_seq`) through every
event of a run, while the spawned-task error handlers of `start_execution`
and `followup_execution` declare a *fresh* counter `let mut seq = 0` before
emitting the `error` event. -/

/-- `ExecutionEventPayload` restricted to the fields the claim inspects. -/
structure ExecutionEventPayload where
  execution_id : String
  event_type : String
  sequence : Nat
  deriving Repr, DecidableEq

/-- `emit_event` (`executions.rs` lines 543–560): `*seq += 1`, then stamp
the payload with the new counter value. -/
def emit_event (execution_id event_type : String) (seq : Nat) :
    Nat × ExecutionEventPayload :=
  (seq + 1,
   { execution_id := execution_id, event_type := event_type,
     sequence := seq + 1 })

/-- Sequence numbers assigned by `n` successive `emit_event` calls
threading one counter that currently holds `seq`. -/
def emitSeqs (eid ety : String) (seq : Nat) : Nat → List Nat
  | 0 => []
  | n + 1 =>
      let r := emit_event eid ety seq
      r.2.sequence :: emitSeqs eid ety r.1 n

/-- The sequence numbers of the events forwarded for one execution when a
pending debate execution starts and the first provider call fails:
`run_execution` emits `status: running` (sequence 1), `run_round` emits the
`user` message event (sequence 2), `run_debate` emits the `Debate started`
status event (sequence 3), the provider error then propagates out of
`run_execution`, and the catch block in `start_execution` (lines 212–224)
declares `let mut seq = 0;` and emits the `error` event — which therefore
gets sequence 1 again. -/
def startExecutionFailingDebateSeqs : List Nat :=
  let s0 : Nat := 0
  let e1 := emit_event "ex" "status" s0
  let e2 := emit_event "ex" "user" e1.1
  let e3 := emit_event "ex" "status" e2.1
  let fresh : Nat := 0
  let e4 := emit_event "ex" "error" fresh
  [e1.2.sequence, e2.2.sequence, e3.2.sequence, e4.2.sequence]

/-- C4 counterexample: in the failed-run scenario the forwarded sequence
numbers are `[1, 2, 3, 1]` — the error event emitted after the failure is
not strictly greater than the earlier events of the same execution. -/
theorem event_sequence_restart_counterexample :
    startExecutionFailingDebateSeqs = [1, 2, 3, 1] ∧
    ¬ List.Pairwise (· < ·) startExecutionFailingDebateSeqs := by
  refine ⟨rfl, ?_⟩
  intro h
  rw [show startExecutionFailingDebateSeqs = [1, 2, 3, 1] from rfl] at h
  have := (List.pairwise_cons.mp h).1 1 (by simp)
  omega

theorem emitSeqs_lt (eid ety : String) :
    ∀ (n seq : Nat), ∀ x ∈ emitSeqs eid ety seq n, seq < x := by
  intro n
  induction n with
  | zero => intro seq x hx; simp [emitSeqs] at hx
  | succ m ih =>
      intro seq x hx
      rcases List.mem_cons.mp hx with h | h
      · subst h
        simp [emit_event]
      · have := ih (seq + 1) x h
        omega

/-- C4 amended.  Every event forwarded through one threaded counter — i.e.
all events of a single `run_execution` call, whichever mode emitted them —
carries a strictly increasing sequence number and the execution id; what
fails is the error path: the catch blocks of `start_execution` and
`followup_execution` restart the counter at 0, so the final `error` event
of a failed run gets sequence 1, which is not greater than the sequence
numbers already emitted. -/
theorem emit_event_sequences_strictly_increasing (eid ety : String)
    (seq n : Nat) :
    List.Pairwise (· < ·) (emitSeqs eid ety seq n) ∧
    (emit_event eid ety seq).2.execution_id = eid := by
  refine ⟨?_, rfl⟩
  induction n generalizing seq with
  | zero => simp [emitSeqs]
  | succ m ih =>
      rw [emitSeqs]
      refine List.Pairwise.cons ?_ (ih (seq + 1))
      intro y hy
      have := emitSeqs_lt eid ety m (seq + 1) y hy
      simp only [emit_event]
      omega

/-! ## The sandboxed file-system layer (`tools/security.rs`,
`tools/builtin/files.rs`, `tools/builtin/text.rs`)

File-system model: an association list from absolute paths (component
lists, rooted at the host file-system root) to nodes.  A node is a file
(content as a character string, one byte per character), a directory, or a
symbolic link carrying an absolute target path.  Path resolution follows
symlinks at intermediate components exactly as the OS does for `lstat` and
`canonicalize`, with fuel so that symlink loops terminate (the OS errors
with `ELOOP`; the model returns `none`; any fuel at least the number of
resolution steps actually needed yields the resolved path, and the chosen
fuel bound is generous for every loop-free file system). -/

/-- An absolute path: component list from the host file-system root. -/
abbrev AbsPath := List String

/-- One file-system node. -/
inductive FsNode where
  | file (data : String)
  | dir
  | symlink (target : AbsPath)
  deriving Repr, DecidableEq

/-- The file system: an association list keyed by absolute path. -/
abbrev Fs := List (AbsPath × FsNode)

def fsLookup (fs : Fs) (p : AbsPath) : Option FsNode :=
  (fs.find? (fun e => e.1 == p)).map (·.2)

/-- Create or overwrite the entry at `p`. -/
def fsUpsert (fs : Fs) (p : AbsPath) (n : FsNode) : Fs :=
  if fs.any (fun e => e.1 == p) then
    fs.map (fun e => if e.1 == p then (p, n) else e)
  else
    fs ++ [(p, n)]

/-- Resolve `comps` against the already-resolved absolute `base`,
following symlinks at every component (including the final one), with
fuel; `none` models a missing entry or a symlink loop (`ELOOP`). -/
def resolveFuel (fs : Fs) : Nat → AbsPath → List String → Option AbsPath
  | 0, _, _ => none
  | _ + 1, base, [] => some base
  | fuel + 1, base, c :: rest =>
      match fsLookup fs (base ++ [c]) with
      | none => none
      | some (FsNode.symlink t) =>
          match resolveFuel fs fuel [] t with
          | none => none
          | some ct => resolveFuel fs fuel ct rest
      | some _ => resolveFuel fs fuel (base ++ [c]) rest

/-- Total size of the file system's symlink targets and keys: a bound on
the resolution work any loop-free lookup can take. -/
def pathsSize (fs : Fs) : Nat :=
  fs.foldl
    (fun acc e =>
      acc + e.1.length +
        (match e.2 with
         | FsNode.symlink t => t.length + 1
         | _ => 1))
    0

/-- A generous fuel bound for resolving `p` in `fs`. -/
def fsFuel (fs : Fs) (p : AbsPath) : Nat :=
  (pathsSize fs + p.length + 1) * (fs.length + 1)

/-- `Path::canonicalize`: fully resolve, following also a final symlink;
fails when any component is missing (or on a symlink loop). -/
def canonicalize (fs : Fs) (p : AbsPath) : Option AbsPath :=
  resolveFuel fs (fsFuel fs p) [] p

/-- `std::fs::symlink_metadata` (`lstat`): resolve all but the last
component — following intermediate symlinks — then report the node at the
final component without following it. -/
def symlinkMetadata (fs : Fs) (p : AbsPath) : Option FsNode :=
  match p.getLast? with
  | none => fsLookup fs []
  | some c =>
      match resolveFuel fs (fsFuel fs p) [] p.dropLast with
      | none => none
      | some parent => fsLookup fs (parent ++ [c])

/-- `Path::exists`: follows symlinks; a dangling symlink does not exist. -/
def fsExists (fs : Fs) (p : AbsPath) : Bool :=
  (canonicalize fs p).isSome

/-- Split a character list at a separator character (each separator starts
a new segment; adjacent separators yield empty segments). -/
def splitSeg (sep : Char) : List Char → List (List Char)
  | [] => [[]]
  | x :: xs =>
      match splitSeg sep xs with
      | [] => [[]]
      | h :: t => if x = sep then [] :: h :: t else (x :: h) :: t

/-- The `/`-separated raw segments of a path string (what Rust's
`Path::components` iterates over before its normalisation, which
`validate_relative_path` then performs itself: empty and `.` segments are
skipped, `..` is `ParentDir`, everything else `Normal`). -/
def pathSegments (input : String) : List String :=
  (splitSeg '/' input.data).map (fun cs => ⟨cs⟩)

/-- The component loop of `validate_relative_path` (`security.rs` lines
13–27): `Normal` segments are accumulated in order, `CurDir` (and the
empty segments the component iterator never yields) are skipped,
`ParentDir` is rejected. -/
def validateComponents : List String → Except String (List String)
  | [] => .ok []
  | seg :: rest =>
      if seg = "" ∨ seg = "." then validateComponents rest
      else if seg = ".." then .error "Parent dir '..' is not allowed"
      else
        match validateComponents rest with
        | .error e => .error e
        | .ok out => .ok (seg :: out)

/-- `validate_relative_path` (`security.rs` lines 5–29): reject absolute
inputs (a Unix path is absolute iff it starts with `/`), then validate
every component. -/
def validate_relative_path (input : String) : Except String (List String) :=
  if input.data.head? = some '/' then
    .error "Absolute paths are not allowed"
  else validateComponents (pathSegments input)

/-- `ensure_within_root` (`security.rs` lines 31–36):
`candidate.starts_with(root)` is component-wise prefix. -/
def ensure_within_root (root candidate : AbsPath) : Except String Unit :=
  if root.isPrefixOf candidate then .ok ()
  else .error "Path is outside workspace"

/-- `canonicalize_root` (`security.rs` lines 68–78). -/
def canonicalize_root (fs : Fs) (root : AbsPath) : Except String AbsPath :=
  match canonicalize fs root with
  | none => .error "canonicalize failed"
  | some c =>
      match fsLookup fs c with
      | some FsNode.dir => .ok c
      | _ => .error "Workspace root is not a directory"

/-- `resolve_existing_path` (`security.rs` lines 80–92): join, `lstat`,
reject a symlink *at the final component*, canonicalize (which silently
follows intermediate symlinks), and re-assert the canonical result is
under the root. -/
def resolve_existing_path (fs : Fs) (root : AbsPath) (rel : List String) :
    Except String AbsPath :=
  let candidate := root ++ rel
  match symlinkMetadata fs candidate with
  | none => .error "lstat failed"
  | some (FsNode.symlink _) => .error "Symlinks are not allowed"
  | some _ =>
      match canonicalize fs candidate with
      | none => .error "canonicalize failed"
      | some canonical =>
          match ensure_within_root root canonical with
          | .error e => .error e
          | .ok _ => .ok canonical

/-- The component loop of `ensure_safe_dir` (`security.rs` lines 41–59):
an existing component that is a symlink or not a directory is rejected
(`Path::exists` follows symlinks, so a dangling symlink takes the
`create_dir` branch, which fails with `EEXIST` because an entry is
present); missing components are created as directories. -/
def ensureSafeDirLoop (fs : Fs) (current : AbsPath) :
    List String → Except String (Fs × AbsPath)
  | [] => .ok (fs, current)
  | c :: rest =>
      let cur := current ++ [c]
      if fsExists fs cur then
        match symlinkMetadata fs cur with
        | none => .error "io error"
        | some (FsNode.symlink _) =>
            .error "Symlinks are not allowed in workspace paths"
        | some (FsNode.file _) => .error "Path component is not a directory"
        | some FsNode.dir => ensureSafeDirLoop fs cur rest
      else
        if (fsLookup fs cur).isSome then .error "create_dir failed"
        else ensureSafeDirLoop (fsUpsert fs cur FsNode.dir) cur rest

/-- `ensure_safe_dir` (`security.rs` lines 38–66): walk/create the
directory chain, then canonicalize the result and re-assert it is under
the root. -/
def ensure_safe_dir (fs : Fs) (root : AbsPath) (relDir : List String) :
    Except String (Fs × AbsPath) :=
  match ensureSafeDirLoop fs root relDir with
  | .error e => .error e
  | .ok (fs', current) =>
      match canonicalize fs' current with
      | none => .error "canonicalize failed"
      | some canonical =>
          match ensure_within_root root canonical with
          | .error e => .error e
          | .ok _ => .ok (fs', canonical)

/-- `resolve_write_path` (`security.rs` lines 94–115): split off the file
name, secure the parent chain, re-assert the full path is under the root,
and refuse an existing symlink at the final component (`full.exists()`
follows symlinks, so a dangling symlink skips the check). -/
def resolve_write_path (fs : Fs) (root : AbsPath) (rel : List String) :
    Except String (Fs × AbsPath) :=
  match rel.getLast? with
  | none => .error "Invalid path"
  | some fileName =>
      match ensure_safe_dir fs root rel.dropLast with
      | .error e => .error e
      | .ok (fs', parentFull) =>
          let full := parentFull ++ [fileName]
          match ensure_within_root root full with
          | .error e => .error e
          | .ok _ =>
              if fsExists fs' full then
                match symlinkMetadata fs' full with
                | some (FsNode.symlink _) =>
                    .error "Refusing to write through symlink"
                | _ => .ok (fs', full)
              else .ok (fs', full)

/-- `read_file` as used by the tool executor and the text tools
(`files.rs`, offset-0/limit-default case of lines 62–114; the executor
reports the returned `truncated` flag in the tool result): sandbox-resolve
the path, require a file, return the first `maxBytes` bytes together with
`truncated = (size > maxBytes)`. -/
def read_file (fs : Fs) (root : AbsPath) (path : String) (maxBytes : Nat) :
    Except String (String × Bool) :=
  match canonicalize_root fs root with
  | .error e => .error e
  | .ok rootC =>
      match validate_relative_path path with
      | .error e => .error e
      | .ok rel =>
          match resolve_existing_path fs rootC rel with
          | .error e => .error e
          | .ok full =>
              match fsLookup fs full with
              | some (FsNode.file data) =>
                  .ok (⟨data.data.take maxBytes⟩,
                       decide (maxBytes < data.data.length))
              | _ => .error "Path is not a file"

/-- `write_file` (`files.rs` lines 116–122).  `std::fs::write` itself
would follow a final symlink, but `resolve_write_path` has already refused
any existing symlink at `full`, so the write is modelled as replacing the
entry at `full`. -/
def write_file (fs : Fs) (root : AbsPath) (path : String) (content : String) :
    Except String Fs :=
  match canonicalize_root fs root with
  | .error e => .error e
  | .ok rootC =>
      match validate_relative_path path with
      | .error e => .error e
      | .ok rel =>
          match resolve_write_path fs rootC rel with
          | .error e => .error e
          | .ok (fs', full) => .ok (fsUpsert fs' full (FsNode.file content))

/-- Rust `str::lines` on the character-list model: split at `'\n'`, do not
yield a final empty line after a trailing newline, strip one trailing
`'\r'` from each line. -/
def rustLines (s : String) : List String :=
  match s.data with
  | [] => []
  | l =>
      let parts := splitSeg '\n' l
      let parts := if l.getLast? = some '\n' then parts.dropLast else parts
      parts.map (fun cs =>
        ⟨if cs.getLast? = some '\r' then cs.dropLast else cs⟩)

/-- `lines.join("\n")`. -/
def joinLinesNl : List String → String
  | [] => ""
  | [l] => l
  | l :: ls => l ++ "\n" ++ joinLinesNl ls

/-- `text.ends_with('\n')`. -/
def endsWithNl (s : String) : Bool :=
  s.data.getLast? == some '\n'

/-- `delete_lines` (`text.rs` lines 46–66): validate `start ≤ end`, read
(bounded by `max_read_bytes`, the truncation flag is discarded), silently
no-op when `start` is past the last line, otherwise drain the 1-based
inclusive line range and write the joined result back. -/
def delete_lines (fs : Fs) (root : AbsPath) (path : String)
    (start end_ : Nat) (maxBytes : Nat) : Except String Fs :=
  if end_ < start then .error "end must be >= start"
  else
    match read_file fs root path maxBytes with
    | .error e => .error e
    | .ok (text, _trunc) =>
        let lines := rustLines text
        let s := start - 1
        let e := end_ - 1
        if s ≥ lines.length then .ok fs
        else
          let endIdx := min e (lines.length - 1)
          let lines' := lines.take s ++ lines.drop (endIdx + 1)
          let next :=
            if endsWithNl text then joinLinesNl lines' ++ "\n"
            else joinLinesNl lines'
          write_file fs root path next

theorem validateComponents_dotdot :
    ∀ (l : List String), ".." ∈ l →
      validateComponents l = .error "Parent dir '..' is not allowed" := by
  intro l
  induction l with
  | nil => intro h; simp at h
  | cons seg rest ih =>
      intro h
      rcases List.mem_cons.mp h with h' | h'
      · subst h'
        simp [validateComponents]
      · by_cases hskip : seg = "" ∨ seg = "."
        · simp [validateComponents, hskip, ih h']
        · by_cases hdd : seg = ".."
          · simp [validateComponents, hdd]
          · simp [validateComponents, hskip, hdd, ih h']

/-- C2.  Any input path string containing a `..` segment fails validation
(with the parent-dir error when the input is relative, with the
absolute-path error when it is also absolute), regardless of where the
canonical form would land; and every absolute input is rejected. -/
theorem validate_relative_path_rejects (input : String) :
    (".." ∈ pathSegments input →
      validate_relative_path input = .error "Parent dir '..' is not allowed" ∨
      validate_relative_path input = .error "Absolute paths are not allowed") ∧
    (input.data.head? = some '/' →
      validate_relative_path input = .error "Absolute paths are not allowed") := by
  constructor
  · intro hdd
    by_cases habs : input.data.head? = some '/'
    · right
      simp [validate_relative_path, habs]
    · left
      simp [validate_relative_path, habs, validateComponents_dotdot _ hdd]
  · intro habs
    simp [validate_relative_path, habs]

/-- Witness for C2: `"a/../b"` would canonicalize inside the root yet is
rejected with the parent-dir error; `"/etc"` is rejected as absolute. -/
theorem validate_relative_path_rejects_witness :
    (validate_relative_path "a/../b" = .error "Parent dir '..' is not allowed" ∨
     validate_relative_path "a/../b" = .error "Absolute paths are not allowed") ∧
    validate_relative_path "/etc" = .error "Absolute paths are not allowed" :=
  ⟨(validate_relative_path_rejects "a/../b").1 (by decide),
   (validate_relative_path_rejects "/etc").2 (by decide)⟩

/-- Workspace root used in concrete sandbox runs. -/
def exRoot : AbsPath := ["ws"]

/-- A workspace containing a real directory `d` with a file, and a symlink
`link` pointing at `d` (inside the root). -/
def exFs : Fs :=
  [(["ws"], FsNode.dir),
   (["ws", "d"], FsNode.dir),
   (["ws", "d", "f.txt"], FsNode.file "hi"),
   (["ws", "link"], FsNode.symlink ["ws", "d"])]

/-- C1 counterexample: `link` is a symlink, yet `read_file` through the
path `link/f.txt` — whose *intermediate* component is that symlink —
succeeds, because `resolve_existing_path` only `lstat`s the final
component and `canonicalize` follows intermediate symlinks silently; the
canonical target stays inside the root, so the prefix re-assertion also
passes.  This refutes "a symlink at any path component causes every tool
operation touching it to fail". -/
theorem read_through_intermediate_symlink_counterexample :
    fsLookup exFs ["ws", "link"] = some (FsNode.symlink ["ws", "d"]) ∧
    read_file exFs exRoot "link/f.txt" 1000 = .ok ("hi", false) :=
  ⟨rfl, rfl⟩

/-- A successful `ensure_safe_dir` always returns a path under the root
(its final `ensure_within_root` re-assertion). -/
theorem ensure_safe_dir_prefix (fs : Fs) (root : AbsPath)
    (relDir : List String) (fs' : Fs) (p : AbsPath)
    (h : ensure_safe_dir fs root relDir = .ok (fs', p)) :
    root.isPrefixOf p = true := by
  simp only [ensure_safe_dir] at h
  split at h
  · simp at h
  · rename_i pair hloop
    split at h
    · simp at h
    · rename_i canonical hcanon
      split at h
      · simp at h
      · rename_i u hwithin
        cases h
        simp only [ensure_within_root] at hwithin
        split at hwithin
        · assumption
        · simp at hwithin

/-- C1 amended.  What the sandbox does enforce: (1) a symlink at the
*final* component makes `resolve_existing_path` (the read/stat/delete
path) fail; (2) any successful read-side resolution lands inside the root;
(3) any successful write-side resolution lands inside the root; (4) for
*every* write target — nested or not — whose parent chain passes
`ensure_safe_dir`, an existing (resolvable) symlink at the final component
is refused.  An intermediate symlink on the read path is *not* itself
rejected — the operation succeeds whenever the canonical target stays
inside the root (see the counterexample). -/
theorem sandbox_symlink_enforcement :
    (∀ (fs : Fs) (root : AbsPath) (rel : List String) (t : AbsPath),
      symlinkMetadata fs (root ++ rel) = some (FsNode.symlink t) →
      resolve_existing_path fs root rel = .error "Symlinks are not allowed") ∧
    (∀ (fs : Fs) (root : AbsPath) (rel : List String) (p : AbsPath),
      resolve_existing_path fs root rel = .ok p → root.isPrefixOf p = true) ∧
    (∀ (fs : Fs) (root : AbsPath) (rel : List String) (fs' : Fs) (p : AbsPath),
      resolve_write_path fs root rel = .ok (fs', p) →
      root.isPrefixOf p = true) ∧
    (∀ (fs : Fs) (root : AbsPath) (rel : List String) (fileName : String)
        (fs' : Fs) (parentFull t : AbsPath),
      rel.getLast? = some fileName →
      ensure_safe_dir fs root rel.dropLast = .ok (fs', parentFull) →
      fsExists fs' (parentFull ++ [fileName]) = true →
      symlinkMetadata fs' (parentFull ++ [fileName]) =
        some (FsNode.symlink t) →
      resolve_write_path fs root rel =
        .error "Refusing to write through symlink") := by
  refine ⟨?_, ?_, ?_, ?_⟩
  · intro fs root rel t h
    simp [resolve_existing_path, h]
  · intro fs root rel p h
    simp only [resolve_existing_path] at h
    split at h
    · simp at h
    · simp at h
    · rename_i node hmeta hnotlink
      split at h
      · simp at h
      · rename_i canonical hcanon
        split at h
        · simp at h
        · rename_i u hwithin
          cases h
          simp only [ensure_within_root] at hwithin
          split at hwithin
          · assumption
          · simp at hwithin
  · intro fs root rel fs' p h
    simp only [resolve_write_path] at h
    split at h
    · simp at h
    · rename_i fileName hlast
      split at h
      · simp at h
      · rename_i pair hsafe
        split at h
        · simp at h
        · rename_i u hwithin
          simp only [ensure_within_root] at hwithin
          split at hwithin
          · rename_i hpref
            split at h
            · split at h
              · simp at h
              · cases h
                exact hpref
            · cases h
              exact hpref
          · simp at hwithin
  · intro fs root rel fileName fs' parentFull t hlast hsafe hex hmeta
    have hp1 : root.isPrefixOf parentFull = true :=
      ensure_safe_dir_prefix fs root rel.dropLast fs' parentFull hsafe
    have hp2 : root <+: parentFull ++ [fileName] :=
      (List.isPrefixOf_iff_prefix.mp hp1).trans (List.prefix_append _ _)
    have hp2b : root.isPrefixOf (parentFull ++ [fileName]) = true :=
      List.isPrefixOf_iff_prefix.mpr hp2
    simp [resolve_write_path, hlast, hsafe, ensure_within_root, hp2, hp2b,
      hex, hmeta]

/-- A workspace with a *nested* symlink `d/link` whose target `x.txt`
exists inside the root. -/
def exFsNested : Fs :=
  [(["ws"], FsNode.dir),
   (["ws", "d"], FsNode.dir),
   (["ws", "x.txt"], FsNode.file "z"),
   (["ws", "d", "link"], FsNode.symlink ["ws", "x.txt"])]

/-- Witness for the amended C1 theorem: the final-component symlink `link`
is refused on the read path; successful read and write resolutions land
inside the root; and the *nested* write target `d/link`, an existing
symlink, is refused on the write path. -/
theorem sandbox_symlink_enforcement_witness :
    resolve_existing_path exFs exRoot ["link"] =
      .error "Symlinks are not allowed" ∧
    List.isPrefixOf exRoot ["ws", "d", "f.txt"] = true ∧
    List.isPrefixOf exRoot ["ws", "new.txt"] = true ∧
    resolve_write_path exFsNested exRoot ["d", "link"] =
      .error "Refusing to write through symlink" :=
  ⟨sandbox_symlink_enforcement.1 exFs exRoot ["link"] ["ws", "d"] (by rfl),
   sandbox_symlink_enforcement.2.1 exFs exRoot ["d", "f.txt"]
     ["ws", "d", "f.txt"] (by rfl),
   sandbox_symlink_enforcement.2.2.1 exFs exRoot ["new.txt"] exFs
     ["ws", "new.txt"] (by rfl),
   sandbox_symlink_enforcement.2.2.2 exFsNested exRoot ["d", "link"] "link"
     exFsNested ["ws", "d"] ["ws", "x.txt"]
     (by rfl) (by rfl) (by rfl) (by rfl)⟩

/-- A workspace with one nine-byte file of three lines. -/
def exFs2 : Fs :=
  [(["ws"], FsNode.dir), (["ws", "a.txt"], FsNode.file "ab\ncd\nef\n")]

/-- C9 amended.  `read_file` itself always reports the cut: whenever
resolution reaches a file, the result carries the first `maxBytes` bytes
together with `truncated = (size > maxBytes)` — the flag is `true` exactly
when content was cut off at the ceiling. -/
theorem read_file_reports_truncation (fs : Fs) (root rootC : AbsPath)
    (path : String) (rel : List String) (full : AbsPath) (data : String)
    (maxBytes : Nat)
    (h1 : canonicalize_root fs root = .ok rootC)
    (h2 : validate_relative_path path = .ok rel)
    (h3 : resolve_existing_path fs rootC rel = .ok full)
    (h4 : fsLookup fs full = some (FsNode.file data)) :
    read_file fs root path maxBytes =
      .ok (⟨data.data.take maxBytes⟩, decide (maxBytes < data.data.length)) := by
  simp only [read_file, h1, h2, h3, h4]

/-- Witness for the amended C9 theorem: reading the nine-byte file with a
four-byte ceiling returns the four-byte prefix and `truncated = true`. -/
theorem read_file_reports_truncation_witness :
    read_file exFs2 exRoot "a.txt" 4 =
      .ok (⟨("ab\ncd\nef\n" : String).data.take 4⟩,
           decide (4 < ("ab\ncd\nef\n" : String).data.length)) :=
  read_file_reports_truncation exFs2 exRoot ["ws"] "a.txt" ["a.txt"]
    ["ws", "a.txt"] "ab\ncd\nef\n" 4 (by rfl) (by rfl) (by rfl) (by rfl)

/-- C9 counterexample: `delete_lines` reads the same file under the
four-byte ceiling (truncated read `"ab\nc"`, flag `true`), *discards* the
flag, deletes line 1 of the truncated text and writes back `"c"` — the
operation succeeds with no error or truncation report, silently dropping
the bytes beyond the ceiling.  This refutes "the write-back tools never
silently rewrite a file from a truncated read". -/
theorem delete_lines_truncated_silent_rewrite_counterexample :
    fsLookup exFs2 ["ws", "a.txt"] = some (FsNode.file "ab\ncd\nef\n") ∧
    read_file exFs2 exRoot "a.txt" 4 = .ok ("ab\nc", true) ∧
    delete_lines exFs2 exRoot "a.txt" 1 1 4 =
      .ok [(["ws"], FsNode.dir), (["ws", "a.txt"], FsNode.file "c")] :=
  ⟨rfl, rfl, rfl⟩

/-- C10.  `delete_lines` with `start ≤ end` but `start` beyond the last
line of the (possibly ceiling-bounded) read returns success without
performing any write: the file system is returned unchanged and no error
is reported. -/
theorem delete_lines_out_of_range_noop (fs : Fs) (root : AbsPath)
    (path : String) (start end_ maxBytes : Nat) (text : String) (trunc : Bool)
    (hse : start ≤ end_)
    (hread : read_file fs root path maxBytes = .ok (text, trunc))
    (hoob : (rustLines text).length < start) :
    delete_lines fs root path start end_ maxBytes = .ok fs := by
  have hnl : ¬ (end_ < start) := Nat.not_lt.mpr hse
  have hge : start - 1 ≥ (rustLines text).length := by omega
  simp only [delete_lines, if_neg hnl, hread, if_pos hge]

/-- Witness for C10: deleting lines 5–7 of a two-line file is a silent
no-op. -/
theorem delete_lines_out_of_range_noop_witness :
    delete_lines exFs2 exRoot "a.txt" 5 7 1000 = .ok exFs2 :=
  delete_lines_out_of_range_noop exFs2 exRoot "a.txt" 5 7 1000
    "ab\ncd\nef\n" false (by decide) (by rfl) (by decide)
